import Mathlib

/-!
Verification of `genIAE2ETest.py`.

The development shallowly embeds the bespoke logic of the script:

* the step-reconciliation routine `map_extracted_data_to_steps`
  (source lines 28-49), which maps a module's flat list of extracted
  HTML-element descriptors back onto the execution steps that use them;
* the configuration resolver `build_llm_settings` (source lines 98-130);
* the summary payload built by `write_internal_execution_plan`
  (source lines 159-165).

JSON dictionaries are embedded as Lean structures.  A key that may be
absent is modelled with `Option` (`none` = key absent); Python's
`dict.get(k)` is `Option` access, `dict.get(k, [])` is `Option.getD []`,
and `d[k]` on a possibly missing key is a fallible (`Option`-valued)
projection, with `none` standing for a raised `KeyError`.  Keys of the
source dictionaries that the embedded functions never read or write
(`url`, `purpose`, `token`, `dispatcher`, ...) are elided.
-/

namespace GenIAE2ETest

/-- A raw extracted element as produced by the LLM extraction pass: a JSON
object whose keys `type`, `request_description`, `identifier_type`,
`identifier_tracking` and `step_name` may each be present or absent. -/
structure FlatElem where
  type : Option String
  request_description : Option String
  identifier_type : Option String
  identifier_tracking : Option String
  step_name : Option String
deriving DecidableEq, Repr

/-- The projected element placed into a step by reconciliation: exactly the
four keys written at source lines 36-41 (`step_name` is dropped). -/
structure ProjElem where
  type : String
  request_description : String
  identifier_type : String
  identifier_tracking : String
deriving DecidableEq, Repr

/-- An execution step: key `step` may be absent (`step.get("step")`), and key
`extracted_data` may be absent or hold a list of projected elements. -/
structure Step where
  step : Option String
  extracted_data : Option (List ProjElem)
deriving DecidableEq, Repr

/-- A module as seen by `map_extracted_data_to_steps`: its
`execution_steps` list (absent key behaves as `[]`, so it is embedded as a
plain list) and its optional flat `extracted_data` list. -/
structure Module where
  execution_steps : List Step
  extracted_data : Option (List FlatElem)
deriving DecidableEq, Repr

/-- The dictionary literal of source lines 36-41: reading
`data["type"]`, `data["request_description"]`, `data["identifier_type"]`,
`data["identifier_tracking"]`.  Any missing key raises `KeyError`,
embedded as `none`. -/
def projectElem (data : FlatElem) : Option ProjElem :=
  match data.type, data.request_description,
        data.identifier_type, data.identifier_tracking with
  | some t, some rd, some it, some itr => some ⟨t, rd, it, itr⟩
  | _, _, _, _ => none

/-- Projecting every element of a list in order; the first missing key
aborts the whole computation (the loop of source lines 34-42 raises). -/
def projectAll : List FlatElem → Option (List ProjElem)
  | [] => some []
  | data :: rest =>
    match projectElem data, projectAll rest with
    | some p, some ps => some (p :: ps)
    | _, _ => none

/-- The elements of the flat list matched to step `s`, in flat-list order:
the guard `data.get("step_name") == step.get("step")` of source line 35.
(Python compares the two `.get` results, so two absent keys compare equal,
which `Option` equality reproduces.) -/
def stepMatched (extracted_items : List FlatElem) (s : Step) : List FlatElem :=
  extracted_items.filter (fun data => data.step_name == s.step)

/-- One iteration of the outer loop of source lines 32-44 on step `s`:
collect and project the matched elements; if at least one matched, set
(`step["extracted_data"] = matched_data`, line 44) the step's
`extracted_data` to the projected list, otherwise leave the step as is. -/
def processStep (extracted_items : List FlatElem) (s : Step) : Option Step :=
  match projectAll (stepMatched extracted_items s) with
  | none => none
  | some [] => some s
  | some (p :: ps) => some ⟨s.step, some (p :: ps)⟩

/-- The outer loop of source lines 32-44 over all steps. -/
def processSteps (extracted_items : List FlatElem) : List Step → Option (List Step)
  | [] => some []
  | s :: rest =>
    match processStep extracted_items s, processSteps extracted_items rest with
    | some s2, some rest2 => some (s2 :: rest2)
    | _, _ => none

/-- Whether a flat element's `step_name` equals some step's `step` text.
The set `matched_indices` of source lines 30/42 collects exactly the
(distinct) indices of the elements satisfying this predicate, so
`len(matched_indices)` is the length of the sublist of elements
satisfying it. -/
def matchesSomeStep (steps : List Step) (data : FlatElem) : Bool :=
  steps.any (fun s => data.step_name == s.step)

/-- Shallow embedding of `map_extracted_data_to_steps` (source lines
28-49).  `none` embeds a raised `KeyError`.  The final test of source
lines 46-47 (`len(matched_indices) == len(extracted_items)`) is embedded
through the filter by `matchesSomeStep`, whose length equals the number
of distinct matched indices; `module.pop("extracted_data", None)` makes
the key absent. -/
def map_extracted_data_to_steps (m : Module) : Option Module :=
  match processSteps (m.extracted_data.getD []) m.execution_steps with
  | none => none
  | some newSteps =>
    some ⟨newSteps,
      if ((m.extracted_data.getD []).filter (matchesSomeStep m.execution_steps)).length
          = (m.extracted_data.getD []).length
      then none
      else m.extracted_data⟩

/-- The per-module loop of source lines 337/430 (and 529):
`test_case_json["modules"][n] = map_extracted_data_to_steps(...)` for
`n` in range, i.e. an in-order map over the module list; a raise aborts
the run. -/
def map_modules : List Module → Option (List Module)
  | [] => some []
  | m :: rest =>
    match map_extracted_data_to_steps m, map_modules rest with
    | some m2, some rest2 => some (m2 :: rest2)
    | _, _ => none

/-- The four CLI options of `parse_arguments` (source lines 75-95), each
absent (`None`) when not passed. -/
structure Args where
  provider : Option String
  api_key : Option String
  api_base : Option String
  model : Option String
deriving DecidableEq, Repr

/-- The dictionary returned by `build_llm_settings` (source lines
124-130).  The `client` entry — an LLM client handle bound to the
resolved key and base URL — is not modelled; `api_base`, which the
source resolves (lines 111/119) and passes into that handle, is recorded
here in its place so that base-URL resolution stays observable. -/
structure LLMSettings where
  provider : String
  api_key : String
  api_base : Option String
  model : String
  llm_provider : String
deriving DecidableEq, Repr

/-- Python truthiness of an optional string: `None` and `""` are falsy. -/
def truthy : Option String → Bool
  | none => false
  | some s => !(s == "")

/-- Python `a or b` on optional strings: the left operand when truthy,
otherwise the right operand. -/
def pyOr (a b : Option String) : Option String :=
  if truthy a then a else b

/-- Python `a or b or c` (the three-level CLI/env/properties chains of
source lines 101-120); `or` associates either way under these
semantics. -/
def pyOr3 (a b c : Option String) : Option String :=
  pyOr a (pyOr b c)

/-- Python `a or "d"`: the chain value when truthy, else the built-in
default string. -/
def pyOrD (a : Option String) (d : String) : String :=
  if truthy a then a.getD d else d

/-- Python `str.lower()`, embedded as a per-character map.  (It agrees
with `String.toLower`, whose extern implementation the kernel cannot
evaluate.) -/
def lower (s : String) : String :=
  ⟨s.data.map Char.toLower⟩

/-- Source line 101: provider resolution
`(args.provider or LLM_PROVIDER or llmProvider or "ollama").lower()`.
`env` and `config` embed `os.getenv` and the properties dictionary of
`load_config` as partial maps from key names to values. -/
def resolve_provider (args : Args) (env config : String → Option String) : String :=
  lower (pyOrD (pyOr3 args.provider (env "LLM_PROVIDER") (config "llmProvider")) "ollama")

/-- Shallow embedding of `build_llm_settings` (source lines 98-130).
`Except.error` embeds the `RuntimeError` (ollama branch, line 106) and
`ValueError` (openai branch, line 118) raises, which in the source occur
before the `openai.OpenAI(...)` client handle is constructed; the raised
messages are carried (apostrophes elided). -/
def build_llm_settings (args : Args) (env config : String → Option String) :
    Except String LLMSettings :=
  if resolve_provider args env config == "ollama" then
    if truthy (pyOr3 args.api_key (env "OLLAMA_API_KEY") (config "ollamaApiKey")) then
      Except.ok
        ⟨resolve_provider args env config,
         (pyOr3 args.api_key (env "OLLAMA_API_KEY") (config "ollamaApiKey")).getD "",
         some (pyOrD (pyOr3 args.api_base (env "OLLAMA_API_BASE") (config "ollamaApiBase"))
           "https://suz-ai01.eisgroup.com/ollama/api/generate"),
         pyOrD (pyOr3 args.model (env "OLLAMA_MODEL") (config "ollamaModel")) "qwen2.5vl:32b",
         "ollama/" ++ pyOrD (pyOr3 args.model (env "OLLAMA_MODEL") (config "ollamaModel")) "qwen2.5vl:32b"⟩
    else
      Except.error "Missing Ollama API key. Set the OLLAMA_API_KEY environment variable or provide ollamaApiKey in config.properties."
  else
    if truthy (pyOr3 args.api_key (env "OPENAI_API_KEY") (config "openaiApiKey")) then
      Except.ok
        ⟨resolve_provider args env config,
         (pyOr3 args.api_key (env "OPENAI_API_KEY") (config "openaiApiKey")).getD "",
         pyOr (pyOr3 args.api_base (env "OPENAI_BASE_URL") (config "openaiBaseUrl")) none,
         pyOrD (pyOr3 args.model (env "OPENAI_MODEL") (config "openaiModel")) "gpt-4o-mini",
         "openai/" ++ pyOrD (pyOr3 args.model (env "OPENAI_MODEL") (config "openaiModel")) "gpt-4o-mini"⟩
    else
      Except.error "OPENAI_API_KEY is required when LLM_PROVIDER is openai."

/-- A JSON scalar of the summary payload: string or number. -/
inductive SVal where
  | str : String → SVal
  | num : Nat → SVal
deriving DecidableEq, Repr

/-- The refined test-case JSON as read back by
`write_internal_execution_plan` (`test_case.get("modules", [])`,
an absent key behaving as the empty list). -/
structure TestCase where
  modules : List Module
deriving DecidableEq, Repr

/-- The `summary_payload` dictionary literal of source lines 160-165,
embedded as an association list so that the exact key set is visible. -/
def summary_payload (feature_path refined_data_path : String) (test_case : TestCase) :
    List (String × SVal) :=
  [("feature_path", SVal.str feature_path),
   ("refined_data_path", SVal.str refined_data_path),
   ("modules", SVal.num test_case.modules.length),
   ("steps", SVal.num ((test_case.modules.map (fun m => m.execution_steps.length)).sum))]

/-- Total step count of a module list, defined by direct recursion,
independently of the generator-sum expression of source line 164. -/
def totalSteps : List Module → Nat
  | [] => 0
  | m :: rest => m.execution_steps.length + totalSteps rest

/-! Concrete inputs used by witnesses and counterexamples. -/

/-- A fully keyed element used by step `"A"`. -/
def elemA1 : FlatElem :=
  ⟨some "input", some "first name", some "XPath", some "xa1", some "A"⟩

/-- A second fully keyed element used by step `"A"`. -/
def elemA2 : FlatElem :=
  ⟨some "button", some "submit", some "XPath", some "xa2", some "A"⟩

/-- A fully keyed element used by step `"B"`. -/
def elemB1 : FlatElem :=
  ⟨some "input", some "email", some "XPath", some "xb1", some "B"⟩

/-- An element naming a step `"Z"` that no module declares; it lacks the
four projected keys. -/
def elemZ1 : FlatElem :=
  ⟨none, none, none, none, some "Z"⟩

/-- An element lacking every key, `step_name` included. -/
def elemNoKeys : FlatElem :=
  ⟨none, none, none, none, none⟩

/-- Projection of `elemA1`. -/
def projA1 : ProjElem := ⟨"input", "first name", "XPath", "xa1"⟩

/-- Projection of `elemA2`. -/
def projA2 : ProjElem := ⟨"button", "submit", "XPath", "xa2"⟩

/-- Projection of `elemB1`. -/
def projB1 : ProjElem := ⟨"input", "email", "XPath", "xb1"⟩

/-- A pre-existing projected element sitting in a step before
reconciliation. -/
def projX : ProjElem := ⟨"div", "existing", "ID", "old"⟩

/-- The spec's concrete scenario: flat list `A, B, A` against steps
`A, B` (each starting with the empty per-step list the decomposition
stage emits). -/
def c1m : Module :=
  ⟨[⟨some "A", some []⟩, ⟨some "B", some []⟩], some [elemA1, elemB1, elemA2]⟩

/-- Reconciliation output for `c1m`: step `A` gets both `A`-elements in
flat-list order, step `B` gets one, and the flat list is removed. -/
def c1out : Module :=
  ⟨[⟨some "A", some [projA1, projA2]⟩, ⟨some "B", some [projB1]⟩], none⟩

/-- The spec's partial-match scenario: flat list `A, Z` against the
single step `A`. -/
def c2m : Module :=
  ⟨[⟨some "A", some []⟩], some [elemA1, elemZ1]⟩

/-- Reconciliation output for `c2m`: the flat list is retained in full,
`Z`-element included. -/
def c2out : Module :=
  ⟨[⟨some "A", some [projA1]⟩], some [elemA1, elemZ1]⟩

/-- A module falsifying the unrestricted sum property: two steps share
the text `"A"` (both receive the single `A`-element), and a third step
`"Q"` carries pre-existing step-level data that no flat element
produced. -/
def cexSumM : Module :=
  ⟨[⟨some "A", none⟩, ⟨some "A", none⟩, ⟨some "Q", some [projX]⟩], some [elemA1]⟩

/-- Reconciliation output for `cexSumM`: the one flat element lands in
both `"A"` steps, the `"Q"` step is untouched, and the flat list is
removed because its single element matched. -/
def cexSumOut : Module :=
  ⟨[⟨some "A", some [projA1]⟩, ⟨some "A", some [projA1]⟩, ⟨some "Q", some [projX]⟩], none⟩

/-- A module whose step `"A"` already holds step-level data before
reconciliation, falsifying the append reading: the matched projection
replaces `projX` instead of being appended after it. -/
def cexReplM : Module :=
  ⟨[⟨some "A", some [projX]⟩], some [elemA1]⟩

/-- Reconciliation output for `cexReplM`. -/
def cexReplOut : Module :=
  ⟨[⟨some "A", some [projA1]⟩], none⟩

/-- Duplicate step text scenario for the soft-foreign-key claim. -/
def dupM : Module :=
  ⟨[⟨some "A", none⟩, ⟨some "A", none⟩], some [elemA1, elemA2]⟩

/-- A module mixing a matched, fully keyed element with unmatched
elements lacking keys. -/
def safeM : Module :=
  ⟨[⟨some "A", none⟩], some [elemA1, elemZ1, elemNoKeys]⟩

/-- Reconciliation output for `dupM`: both identically named steps
receive both matched elements. -/
def dupOut : Module :=
  ⟨[⟨some "A", some [projA1, projA2]⟩, ⟨some "A", some [projA1, projA2]⟩], none⟩

/-- Environment holding only `OPENAI_API_KEY=sk-test`. -/
def envSk : String → Option String :=
  fun n => if n == "OPENAI_API_KEY" then some "sk-test" else none

/-- Empty environment / empty properties file. -/
def noEnv : String → Option String := fun _ => none

/-- CLI invocation `--provider openai` with nothing else. -/
def argsOpenai : Args := ⟨some "openai", none, none, none⟩

/-- CLI invocation with no flags at all. -/
def argsNone : Args := ⟨none, none, none, none⟩

/-- CLI invocation passing only `--api-key cli-key`. -/
def argsCliKey : Args := ⟨none, some "cli-key", none, none⟩

/-- Settings resolved for `argsOpenai` under `envSk`. -/
def settingsSk : LLMSettings :=
  ⟨"openai", "sk-test", none, "gpt-4o-mini", "openai/gpt-4o-mini"⟩

/-- Settings resolved for `argsCliKey` with empty environment and
properties file. -/
def settingsCliKey : LLMSettings :=
  ⟨"ollama", "cli-key", some "https://suz-ai01.eisgroup.com/ollama/api/generate",
   "qwen2.5vl:32b", "ollama/qwen2.5vl:32b"⟩

/-! Helper lemmas about the embedded definitions. -/

theorem projectAll_length {l : List FlatElem} {ps : List ProjElem}
    (h : projectAll l = some ps) : ps.length = l.length := by
  induction l generalizing ps with
  | nil =>
    simp only [projectAll] at h
    cases h
    rfl
  | cons d rest ih =>
    simp only [projectAll] at h
    split at h
    next p ps' hp hps =>
      cases h
      simp [ih hps]
    next => cases h

theorem projectAll_nil_of {l : List FlatElem}
    (h : projectAll l = some []) : l = [] := by
  cases l with
  | nil => rfl
  | cons d rest =>
    simp only [projectAll] at h
    split at h
    next => cases h
    next => cases h

theorem projectAll_isSome {l : List FlatElem}
    (h : ∀ d ∈ l, (projectElem d).isSome) : (projectAll l).isSome := by
  induction l with
  | nil => simp [projectAll]
  | cons d rest ih =>
    have hd := h d (by simp)
    have hrest := ih (fun x hx => h x (by simp [hx]))
    simp only [projectAll]
    cases hpd : projectElem d with
    | none => rw [hpd] at hd; cases hd
    | some p =>
      cases hpr : projectAll rest with
      | none => rw [hpr] at hrest; cases hrest
      | some ps => simp

theorem projectElem_isSome_of {d : FlatElem}
    (h : d.type.isSome ∧ d.request_description.isSome ∧
         d.identifier_type.isSome ∧ d.identifier_tracking.isSome) :
    (projectElem d).isSome := by
  obtain ⟨h1, h2, h3, h4⟩ := h
  cases ht : d.type with
  | none => rw [ht] at h1; cases h1
  | some t =>
    cases hrd : d.request_description with
    | none => rw [hrd] at h2; cases h2
    | some rd =>
      cases hit : d.identifier_type with
      | none => rw [hit] at h3; cases h3
      | some it =>
        cases htr : d.identifier_tracking with
        | none => rw [htr] at h4; cases h4
        | some itr => simp [projectElem, ht, hrd, hit, htr]

theorem processStep_spec {items : List FlatElem} {s s' : Step}
    (h : processStep items s = some s') :
    (stepMatched items s = [] ∧ s' = s) ∨
    (stepMatched items s ≠ [] ∧
      ∃ md, projectAll (stepMatched items s) = some md ∧ s' = ⟨s.step, some md⟩) := by
  simp only [processStep] at h
  split at h
  next => cases h
  next hp =>
    cases h
    exact Or.inl ⟨projectAll_nil_of hp, rfl⟩
  next p ps hp =>
    cases h
    refine Or.inr ⟨?_, p :: ps, hp, rfl⟩
    intro hnil
    rw [hnil] at hp
    simp [projectAll] at hp

theorem processStep_step {items : List FlatElem} {s s' : Step}
    (h : processStep items s = some s') : s'.step = s.step := by
  rcases processStep_spec h with ⟨_, rfl⟩ | ⟨_, md, _, rfl⟩ <;> rfl

theorem processSteps_length {items : List FlatElem} {steps ns : List Step}
    (h : processSteps items steps = some ns) : ns.length = steps.length := by
  induction steps generalizing ns with
  | nil =>
    simp only [processSteps] at h
    cases h
    rfl
  | cons s rest ih =>
    simp only [processSteps] at h
    split at h
    next s2 rest2 hs hrest =>
      cases h
      simp [ih hrest]
    next => cases h

theorem processSteps_get {items : List FlatElem} {steps ns : List Step}
    (h : processSteps items steps = some ns) :
    ∀ (i : Nat) (hi : i < steps.length) (hi2 : i < ns.length),
      processStep items (steps.get ⟨i, hi⟩) = some (ns.get ⟨i, hi2⟩) := by
  induction steps generalizing ns with
  | nil => intro i hi _; cases hi
  | cons s rest ih =>
    simp only [processSteps] at h
    split at h
    next s2 rest2 hs hrest =>
      cases h
      intro i hi hi2
      cases i with
      | zero => exact hs
      | succ n => exact ih hrest n (Nat.lt_of_succ_lt_succ hi) (Nat.lt_of_succ_lt_succ hi2)
    next => cases h

theorem matchesSomeStep_congr {items : List FlatElem} {steps ns : List Step}
    (h : processSteps items steps = some ns) (d : FlatElem) :
    matchesSomeStep ns d = matchesSomeStep steps d := by
  induction steps generalizing ns with
  | nil =>
    simp only [processSteps] at h
    cases h
    rfl
  | cons s rest ih =>
    simp only [processSteps] at h
    split at h
    next s2 rest2 hs hrest =>
      cases h
      simp only [matchesSomeStep, List.any_cons]
      rw [processStep_step hs]
      have := ih hrest
      simp only [matchesSomeStep] at this
      rw [this]
    next => cases h

theorem map_inv {m m' : Module}
    (h : map_extracted_data_to_steps m = some m') :
    processSteps (m.extracted_data.getD []) m.execution_steps = some m'.execution_steps ∧
    m'.extracted_data =
      (if ((m.extracted_data.getD []).filter (matchesSomeStep m.execution_steps)).length
          = (m.extracted_data.getD []).length
       then none else m.extracted_data) := by
  simp only [map_extracted_data_to_steps] at h
  split at h
  next => cases h
  next ns hns =>
    cases h
    exact ⟨hns, rfl⟩

theorem filter_length_eq_length_iff {α : Type} {p : α → Bool} {l : List α} :
    (l.filter p).length = l.length ↔ ∀ a ∈ l, p a = true := by
  constructor
  · intro h
    exact List.filter_eq_self.mp ((List.filter_sublist l).eq_of_length h)
  · intro h
    rw [List.filter_eq_self.mpr h]

theorem filter_or_length {α : Type} (p q : α → Bool)
    (hpq : ∀ a, p a = true → q a = false) (l : List α) :
    (l.filter (fun a => p a || q a)).length
      = (l.filter p).length + (l.filter q).length := by
  induction l with
  | nil => rfl
  | cons a rest ih =>
    cases hpa : p a with
    | true =>
      have hqa := hpq a hpa
      simp [List.filter_cons, hpa, hqa, ih]
      omega
    | false =>
      cases hqa : q a with
      | true =>
        simp [List.filter_cons, hpa, hqa, ih]
        omega
      | false => simp [List.filter_cons, hpa, hqa, ih]

theorem stepMatched_length_of_processStep {items : List FlatElem} {s s' : Step}
    (h : processStep items s = some s')
    (h0 : s.extracted_data = none ∨ s.extracted_data = some []) :
    (s'.extracted_data.getD []).length = (stepMatched items s).length := by
  rcases processStep_spec h with ⟨hm, rfl⟩ | ⟨hm, md, hmd, rfl⟩
  · rw [hm]
    rcases h0 with h0 | h0 <;> simp [h0]
  · simpa using projectAll_length hmd

theorem processSteps_sum {items : List FlatElem} {steps ns : List Step}
    (h : processSteps items steps = some ns)
    (h0 : ∀ s ∈ steps, s.extracted_data = none ∨ s.extracted_data = some []) :
    (ns.map (fun s => (s.extracted_data.getD []).length)).sum
      = (steps.map (fun s => (stepMatched items s).length)).sum := by
  induction steps generalizing ns with
  | nil =>
    simp only [processSteps] at h
    cases h
    rfl
  | cons s rest ih =>
    simp only [processSteps] at h
    split at h
    next s2 rest2 hs hrest =>
      cases h
      simp only [List.map_cons, List.sum_cons]
      rw [stepMatched_length_of_processStep hs (h0 s (by simp)),
          ih hrest (fun x hx => h0 x (by simp [hx]))]
    next => cases h

theorem sum_stepMatched_of_distinct {items : List FlatElem} {steps : List Step}
    (hd : steps.Pairwise (fun a b => a.step ≠ b.step)) :
    (steps.map (fun s => (stepMatched items s).length)).sum
      = (items.filter (matchesSomeStep steps)).length := by
  induction steps with
  | nil =>
    have h0 : ∀ d ∈ items, matchesSomeStep [] d = false := fun d _ => rfl
    simp [List.filter_congr h0]
  | cons s rest ih =>
    rcases List.pairwise_cons.mp hd with ⟨hsne, hrest⟩
    have hdisj : ∀ d : FlatElem,
        (d.step_name == s.step) = true → matchesSomeStep rest d = false := by
      intro d hds
      by_contra hc
      rw [Bool.not_eq_false, matchesSomeStep, List.any_eq_true] at hc
      obtain ⟨s2, hs2mem, hs2⟩ := hc
      exact hsne s2 hs2mem (by
        have h1 : d.step_name = s.step := by simpa using hds
        have h2 : d.step_name = s2.step := by simpa using hs2
        rw [← h1, h2])
    have hsplit := filter_or_length (fun d : FlatElem => d.step_name == s.step)
      (matchesSomeStep rest) hdisj items
    simp only [List.map_cons, List.sum_cons, ih hrest]
    calc (stepMatched items s).length + (items.filter (matchesSomeStep rest)).length
        = (items.filter (fun d => (d.step_name == s.step) || matchesSomeStep rest d)).length := by
          unfold stepMatched
          rw [hsplit]
      _ = (items.filter (matchesSomeStep (s :: rest))).length := by
          congr 1

theorem processStep_empty (s : Step) : processStep [] s = some s := by
  simp [processStep, stepMatched, List.filter, projectAll]

theorem processSteps_empty (steps : List Step) : processSteps [] steps = some steps := by
  induction steps with
  | nil => rfl
  | cons s rest ih => simp [processSteps, processStep_empty, ih]

theorem processStep_fixpoint {items : List FlatElem} {s s' : Step}
    (h : processStep items s = some s') : processStep items s' = some s' := by
  rcases processStep_spec h with ⟨hm, rfl⟩ | ⟨hm, md, hmd, rfl⟩
  · exact h
  · have hmatch : stepMatched items (⟨s.step, some md⟩ : Step) = stepMatched items s := rfl
    simp only [processStep, hmatch, hmd]
    cases md with
    | nil =>
      exact absurd (projectAll_nil_of hmd) hm
    | cons p ps => rfl

theorem processSteps_fixpoint {items : List FlatElem} {steps ns : List Step}
    (h : processSteps items steps = some ns) : processSteps items ns = some ns := by
  induction steps generalizing ns with
  | nil =>
    simp only [processSteps] at h
    cases h
    rfl
  | cons s rest ih =>
    simp only [processSteps] at h
    split at h
    next s2 rest2 hs hrest =>
      cases h
      simp [processSteps, processStep_fixpoint hs, ih hrest]
    next => cases h

theorem map_modules_length {ms ns : List Module}
    (h : map_modules ms = some ns) : ns.length = ms.length := by
  induction ms generalizing ns with
  | nil =>
    simp only [map_modules] at h
    cases h
    rfl
  | cons m rest ih =>
    simp only [map_modules] at h
    split at h
    next m2 rest2 hm hrest =>
      cases h
      simp [ih hrest]
    next => cases h

theorem map_modules_get {ms ns : List Module}
    (h : map_modules ms = some ns) :
    ∀ (i : Nat) (hi : i < ms.length) (hi2 : i < ns.length),
      map_extracted_data_to_steps (ms.get ⟨i, hi⟩) = some (ns.get ⟨i, hi2⟩) := by
  induction ms generalizing ns with
  | nil => intro i hi _; cases hi
  | cons m rest ih =>
    simp only [map_modules] at h
    split at h
    next m2 rest2 hm hrest =>
      cases h
      intro i hi hi2
      cases i with
      | zero => exact hm
      | succ n => exact ih hrest n (Nat.lt_of_succ_lt_succ hi) (Nat.lt_of_succ_lt_succ hi2)
    next => cases h

theorem reconcile_noflat_noop (m : Module) (hm : m.extracted_data = none) :
    map_extracted_data_to_steps m = some m := by
  obtain ⟨steps, ed⟩ := m
  simp only at hm
  cases hm
  simp [map_extracted_data_to_steps, processSteps_empty]

theorem reconcile_removed_iff {m m' : Module}
    (h : map_extracted_data_to_steps m = some m') :
    m'.extracted_data = none ↔
      ∀ d ∈ m.extracted_data.getD [], matchesSomeStep m.execution_steps d = true := by
  obtain ⟨_, hed⟩ := map_inv h
  rw [hed]
  constructor
  · intro hif
    by_cases hc : ((m.extracted_data.getD []).filter (matchesSomeStep m.execution_steps)).length
        = (m.extracted_data.getD []).length
    · exact filter_length_eq_length_iff.mp hc
    · rw [if_neg hc] at hif
      intro d hdm
      rw [hif] at hdm
      simp at hdm
  · intro hall
    rw [if_pos (filter_length_eq_length_iff.mpr hall)]

theorem reconcile_self {m m' : Module}
    (h : map_extracted_data_to_steps m = some m') :
    map_extracted_data_to_steps m' = some m' := by
  obtain ⟨hps, hed⟩ := map_inv h
  by_cases hc : ((m.extracted_data.getD []).filter (matchesSomeStep m.execution_steps)).length
      = (m.extracted_data.getD []).length
  · rw [if_pos hc] at hed
    exact reconcile_noflat_noop m' hed
  · rw [if_neg hc] at hed
    have hitems : m'.extracted_data.getD [] = m.extracted_data.getD [] := by rw [hed]
    have hfix := processSteps_fixpoint hps
    have hfiltereq : (m.extracted_data.getD []).filter (matchesSomeStep m'.execution_steps)
        = (m.extracted_data.getD []).filter (matchesSomeStep m.execution_steps) :=
      List.filter_congr (fun d _ => matchesSomeStep_congr hps d)
    simp only [map_extracted_data_to_steps, hitems, hfix, hfiltereq, hed, if_neg hc]
    rw [← hed]

theorem processSteps_clear {items : List FlatElem} {steps ns : List Step}
    (h : processSteps items steps = some ns)
    (h0 : ∀ s ∈ steps, s.extracted_data = none) :
    ns.map (fun s => (⟨s.step, none⟩ : Step)) = steps := by
  induction steps generalizing ns with
  | nil =>
    simp only [processSteps] at h
    cases h
    rfl
  | cons s rest ih =>
    simp only [processSteps] at h
    split at h
    next s2 rest2 hs hrest =>
      cases h
      have hsed := h0 s (by simp)
      have hhead : (⟨s2.step, none⟩ : Step) = s := by
        rcases processStep_spec hs with ⟨_, rfl⟩ | ⟨_, md, _, rfl⟩
        · rw [← hsed]
        · rw [← hsed]
      simp only [List.map_cons, hhead]
      rw [ih hrest (fun x hx => h0 x (by simp [hx]))]
    next => cases h

theorem processSteps_isSome {items : List FlatElem} {steps : List Step}
    (h : ∀ s ∈ steps, (processStep items s).isSome) :
    (processSteps items steps).isSome := by
  induction steps with
  | nil => simp [processSteps]
  | cons s rest ih =>
    have hs := h s (by simp)
    have hrest := ih (fun x hx => h x (by simp [hx]))
    simp only [processSteps]
    cases hps : processStep items s with
    | none => rw [hps] at hs; cases hs
    | some s2 =>
      cases hpr : processSteps items rest with
      | none => rw [hpr] at hrest; cases hrest
      | some rest2 => simp

/-! Claim theorems. -/

/-- C1 (amended): for every module whose execution steps carry pairwise
distinct step texts and whose per-step `extracted_data` is initially
absent or empty, after successful reconciliation the sum over all
execution steps of the length of `step.extracted_data` equals the number
of elements of the original flat `module.extracted_data` whose
`step_name` equals some step's text; in particular the flat list
`A, B, A` against steps `A, B` gives step `A` two elements and step `B`
one. -/
theorem reconcile_sum_matched_distinct :
    ∀ (m m' : Module), map_extracted_data_to_steps m = some m' →
      m.execution_steps.Pairwise (fun a b => a.step ≠ b.step) →
      (∀ s ∈ m.execution_steps, s.extracted_data = none ∨ s.extracted_data = some []) →
      (m'.execution_steps.map (fun s => (s.extracted_data.getD []).length)).sum
        = ((m.extracted_data.getD []).filter (matchesSomeStep m.execution_steps)).length := by
  intro m m' h hd h0
  obtain ⟨hps, _⟩ := map_inv h
  rw [processSteps_sum hps h0, sum_stepMatched_of_distinct hd]

/-- C1 counterexample: on a module with two steps of identical text `A`
plus a step `Q` holding pre-existing step-level data, the sum of the
per-step list lengths is 3 while only 1 flat element matched a step. -/
theorem reconcile_sum_counterexample :
    map_extracted_data_to_steps cexSumM = some cexSumOut ∧
    (cexSumOut.execution_steps.map (fun s => (s.extracted_data.getD []).length)).sum = 3 ∧
    ((cexSumM.extracted_data.getD []).filter (matchesSomeStep cexSumM.execution_steps)).length = 1 := by
  decide

/-- Witness for C1 at the spec's concrete `A, B, A` scenario. -/
theorem reconcile_sum_matched_distinct_witness :
    map_extracted_data_to_steps c1m = some c1out ∧
    (c1out.execution_steps.map (fun s => (s.extracted_data.getD []).length)).sum
      = ((c1m.extracted_data.getD []).filter (matchesSomeStep c1m.execution_steps)).length :=
  ⟨by decide, reconcile_sum_matched_distinct c1m c1out (by decide) (by decide) (by decide)⟩

/-- C2: after successful reconciliation the flat `extracted_data` key is
absent exactly when every element of it matched some step's text, and
when some element matched no step the key retains the original list,
which still contains that element. -/
theorem reconcile_removal_iff_all_matched :
    ∀ (m m' : Module), map_extracted_data_to_steps m = some m' →
      (m'.extracted_data = none ↔
        ∀ d ∈ m.extracted_data.getD [], matchesSomeStep m.execution_steps d = true) ∧
      (∀ d ∈ m.extracted_data.getD [], matchesSomeStep m.execution_steps d = false →
        m'.extracted_data = m.extracted_data ∧ d ∈ m'.extracted_data.getD []) := by
  intro m m' h
  obtain ⟨_, hed⟩ := map_inv h
  constructor
  · rw [hed]
    constructor
    · intro hif
      by_cases hc : ((m.extracted_data.getD []).filter (matchesSomeStep m.execution_steps)).length
          = (m.extracted_data.getD []).length
      · exact filter_length_eq_length_iff.mp hc
      · rw [if_neg hc] at hif
        intro d hdm
        rw [hif] at hdm
        simp at hdm
    · intro hall
      rw [if_pos (filter_length_eq_length_iff.mpr hall)]
  · intro d hdm hdnm
    have hnotall : ¬ ∀ x ∈ m.extracted_data.getD [], matchesSomeStep m.execution_steps x = true := by
      intro hall
      rw [hall d hdm] at hdnm
      cases hdnm
    have hc : ¬ ((m.extracted_data.getD []).filter (matchesSomeStep m.execution_steps)).length
        = (m.extracted_data.getD []).length :=
      fun hc => hnotall (filter_length_eq_length_iff.mp hc)
    rw [hed, if_neg hc]
    exact ⟨rfl, hdm⟩

/-- Witness for C2 at the spec's concrete scenario: flat list `A, Z`
against the single step `A`; the retained flat list keeps the `Z`
element. -/
theorem reconcile_removal_iff_all_matched_witness :
    map_extracted_data_to_steps c2m = some c2out ∧
    ((c2out.extracted_data = none ↔
        ∀ d ∈ c2m.extracted_data.getD [], matchesSomeStep c2m.execution_steps d = true) ∧
      (∀ d ∈ c2m.extracted_data.getD [], matchesSomeStep c2m.execution_steps d = false →
        c2out.extracted_data = c2m.extracted_data ∧ d ∈ c2out.extracted_data.getD [])) :=
  ⟨by decide, reconcile_removal_iff_all_matched c2m c2out (by decide)⟩

/-- C3 counterexample: a step already holding `extracted_data
[projX]` receives the matched projection alone — the pre-existing
element is replaced, not appended to. -/
theorem reconcile_replaces_counterexample :
    map_extracted_data_to_steps cexReplM = some cexReplOut ∧
    cexReplOut.execution_steps = [⟨some "A", some [projA1]⟩] ∧
    cexReplOut.execution_steps ≠ [⟨some "A", some [projX, projA1]⟩] := by
  decide

/-- C3 (amended): for every step with at least one matching element,
reconciliation sets that step's `extracted_data` to the list of matched
elements projected to the four fields (replacing any previous value);
a step with zero matches is left untouched; the projection keeps exactly
`type`, `request_description`, `identifier_type`, `identifier_tracking`
and drops `step_name`. -/
theorem reconcile_sets_projected :
    (∀ (m m' : Module) (i : Nat) (hi : i < m.execution_steps.length)
        (hi2 : i < m'.execution_steps.length),
      map_extracted_data_to_steps m = some m' →
      stepMatched (m.extracted_data.getD []) (m.execution_steps.get ⟨i, hi⟩) = [] →
      m'.execution_steps.get ⟨i, hi2⟩ = m.execution_steps.get ⟨i, hi⟩) ∧
    (∀ (m m' : Module) (i : Nat) (hi : i < m.execution_steps.length)
        (hi2 : i < m'.execution_steps.length),
      map_extracted_data_to_steps m = some m' →
      stepMatched (m.extracted_data.getD []) (m.execution_steps.get ⟨i, hi⟩) ≠ [] →
      ∃ md, projectAll (stepMatched (m.extracted_data.getD [])
              (m.execution_steps.get ⟨i, hi⟩)) = some md ∧
        m'.execution_steps.get ⟨i, hi2⟩
          = ⟨(m.execution_steps.get ⟨i, hi⟩).step, some md⟩) ∧
    (∀ (d : FlatElem) (t rd it itr : String),
      d.type = some t → d.request_description = some rd →
      d.identifier_type = some it → d.identifier_tracking = some itr →
      projectElem d = some ⟨t, rd, it, itr⟩) := by
  refine ⟨?_, ?_, ?_⟩
  · intro m m' i hi hi2 h hm
    have hstep := processSteps_get (map_inv h).1 i hi hi2
    rcases processStep_spec hstep with ⟨_, he⟩ | ⟨hne, _, _, _⟩
    · exact he
    · exact absurd hm hne
  · intro m m' i hi hi2 h hm
    have hstep := processSteps_get (map_inv h).1 i hi hi2
    rcases processStep_spec hstep with ⟨hnil, _⟩ | ⟨_, md, hmd, he⟩
    · exact absurd hnil hm
    · exact ⟨md, hmd, he⟩
  · intro d t rd it itr h1 h2 h3 h4
    simp [projectElem, h1, h2, h3, h4]

/-- Witness for C3 at the `A, B, A` scenario, step index 0. -/
theorem reconcile_sets_projected_witness :
    map_extracted_data_to_steps c1m = some c1out ∧
    (∃ md, projectAll (stepMatched (c1m.extracted_data.getD [])
            (c1m.execution_steps.get ⟨0, by decide⟩)) = some md ∧
      c1out.execution_steps.get ⟨0, by decide⟩
        = ⟨(c1m.execution_steps.get ⟨0, by decide⟩).step, some md⟩) :=
  ⟨by decide,
    reconcile_sets_projected.2.1 c1m c1out 0 (by decide) (by decide) (by decide) (by decide)⟩

/-- C4: reconciliation preserves order and never drops anything: mapping
over the module list keeps its length and processes each position in
place; within a module the step list keeps its length, each step keeps
its text, and a step's element list is either untouched or is the
projection of a sublist (hence in original relative order) of the flat
list. -/
theorem reconcile_order_preservation :
    (∀ (ms ns : List Module), map_modules ms = some ns →
      ns.length = ms.length ∧
      ∀ (i : Nat) (hi : i < ms.length) (hi2 : i < ns.length),
        map_extracted_data_to_steps (ms.get ⟨i, hi⟩) = some (ns.get ⟨i, hi2⟩)) ∧
    (∀ (m m' : Module), map_extracted_data_to_steps m = some m' →
      m'.execution_steps.length = m.execution_steps.length ∧
      ∀ (i : Nat) (hi : i < m.execution_steps.length) (hi2 : i < m'.execution_steps.length),
        (m'.execution_steps.get ⟨i, hi2⟩).step = (m.execution_steps.get ⟨i, hi⟩).step ∧
        ((m'.execution_steps.get ⟨i, hi2⟩).extracted_data
            = (m.execution_steps.get ⟨i, hi⟩).extracted_data ∨
          ∃ sub : List FlatElem, List.Sublist sub (m.extracted_data.getD []) ∧
            projectAll sub
              = some ((m'.execution_steps.get ⟨i, hi2⟩).extracted_data.getD []))) := by
  constructor
  · intro ms ns h
    exact ⟨map_modules_length h, map_modules_get h⟩
  · intro m m' h
    have hps := (map_inv h).1
    refine ⟨processSteps_length hps, ?_⟩
    intro i hi hi2
    have hstep := processSteps_get hps i hi hi2
    refine ⟨processStep_step hstep, ?_⟩
    rcases processStep_spec hstep with ⟨_, he⟩ | ⟨_, md, hmd, he⟩
    · exact Or.inl (by rw [he])
    · refine Or.inr ⟨stepMatched (m.extracted_data.getD []) (m.execution_steps.get ⟨i, hi⟩),
        List.filter_sublist _, ?_⟩
      rw [he]
      simpa using hmd

/-- Witness for C4 on the singleton module list holding the `A, B, A`
scenario. -/
theorem reconcile_order_preservation_witness :
    map_modules [c1m] = some [c1out] ∧
    ([c1out] : List Module).length = ([c1m] : List Module).length :=
  ⟨by decide, (reconcile_order_preservation.1 [c1m] [c1out] (by decide)).1⟩

/-- C5: reconciliation is idempotent: on a module whose flat list is
absent it is an identity and raises nothing; a successful output is a
fixed point; and re-running it on the output with the per-step lists
cleared back and the same flat list reproduces the same output. -/
theorem reconcile_idempotent :
    (∀ m : Module, m.extracted_data = none → map_extracted_data_to_steps m = some m) ∧
    (∀ (m m' : Module), map_extracted_data_to_steps m = some m' →
      map_extracted_data_to_steps m' = some m') ∧
    (∀ (m m' : Module), (∀ s ∈ m.execution_steps, s.extracted_data = none) →
      map_extracted_data_to_steps m = some m' →
      map_extracted_data_to_steps
        ⟨m'.execution_steps.map (fun s => ⟨s.step, none⟩), m.extracted_data⟩ = some m') := by
  refine ⟨fun m hm => reconcile_noflat_noop m hm, fun m m' h => reconcile_self h, ?_⟩
  intro m m' hclear h
  have hcl := processSteps_clear (map_inv h).1 hclear
  rw [hcl]
  exact h

/-- Witness for C5: the `A, B, A` scenario output is a fixed point. -/
theorem reconcile_idempotent_witness :
    map_extracted_data_to_steps c1m = some c1out ∧
    map_extracted_data_to_steps c1out = some c1out :=
  ⟨by decide, reconcile_idempotent.2.1 c1m c1out (by decide)⟩

/-- C9: matching is exact string equality of `step_name` against the
step text: two distinct steps with identical text both receive the same
projected matched elements, and removal of the flat list is still
governed by each element matching some step, counted once per
element. -/
theorem reconcile_duplicate_step_text :
    ∀ (m m' : Module) (i j : Nat) (hi : i < m.execution_steps.length)
      (hj : j < m.execution_steps.length) (hi2 : i < m'.execution_steps.length)
      (hj2 : j < m'.execution_steps.length),
      map_extracted_data_to_steps m = some m' → i ≠ j →
      (m.execution_steps.get ⟨i, hi⟩).step = (m.execution_steps.get ⟨j, hj⟩).step →
      (stepMatched (m.extracted_data.getD []) (m.execution_steps.get ⟨i, hi⟩) ≠ [] →
        ∃ md, projectAll (stepMatched (m.extracted_data.getD [])
                (m.execution_steps.get ⟨i, hi⟩)) = some md ∧
          (m'.execution_steps.get ⟨i, hi2⟩).extracted_data = some md ∧
          (m'.execution_steps.get ⟨j, hj2⟩).extracted_data = some md) ∧
      (m'.extracted_data = none ↔
        ∀ d ∈ m.extracted_data.getD [], matchesSomeStep m.execution_steps d = true) := by
  intro m m' i j hi hj hi2 hj2 h hij htext
  refine ⟨?_, reconcile_removed_iff h⟩
  intro hm
  have hmeq : stepMatched (m.extracted_data.getD []) (m.execution_steps.get ⟨j, hj⟩)
      = stepMatched (m.extracted_data.getD []) (m.execution_steps.get ⟨i, hi⟩) := by
    unfold stepMatched
    rw [htext]
  have hstepi := processSteps_get (map_inv h).1 i hi hi2
  have hstepj := processSteps_get (map_inv h).1 j hj hj2
  rcases processStep_spec hstepi with ⟨hnil, _⟩ | ⟨_, md, hmd, hei⟩
  · exact absurd hnil hm
  rcases processStep_spec hstepj with ⟨hnilj, _⟩ | ⟨_, md2, hmd2, hej⟩
  · rw [hmeq] at hnilj
    exact absurd hnilj hm
  refine ⟨md, hmd, by rw [hei], ?_⟩
  rw [hmeq] at hmd2
  rw [hej]
  simp only
  rw [hmd] at hmd2
  cases hmd2
  rfl

/-- Witness for C9 on the module with two steps both named `A`. -/
theorem reconcile_duplicate_step_text_witness :
    map_extracted_data_to_steps dupM = some dupOut ∧
    ((stepMatched (dupM.extracted_data.getD []) (dupM.execution_steps.get ⟨0, by decide⟩) ≠ [] →
        ∃ md, projectAll (stepMatched (dupM.extracted_data.getD [])
                (dupM.execution_steps.get ⟨0, by decide⟩)) = some md ∧
          (dupOut.execution_steps.get ⟨0, by decide⟩).extracted_data = some md ∧
          (dupOut.execution_steps.get ⟨1, by decide⟩).extracted_data = some md) ∧
      (dupOut.extracted_data = none ↔
        ∀ d ∈ dupM.extracted_data.getD [], matchesSomeStep dupM.execution_steps d = true)) :=
  ⟨by decide,
    reconcile_duplicate_step_text dupM dupOut 0 1 (by decide) (by decide) (by decide) (by decide)
      (by decide) (by decide) (by decide)⟩

/-- C10: reconciliation reads the four projected keys only of elements
whose `step_name` matches some step, so it completes without error on
every module in which each matched element carries those four keys;
unmatched elements may lack any key, `step_name` included. -/
theorem reconcile_total_on_keyed_matches :
    ∀ m : Module,
      (∀ d ∈ m.extracted_data.getD [], matchesSomeStep m.execution_steps d = true →
        d.type.isSome ∧ d.request_description.isSome ∧
        d.identifier_type.isSome ∧ d.identifier_tracking.isSome) →
      (map_extracted_data_to_steps m).isSome := by
  intro m h
  have hsteps : ∀ s ∈ m.execution_steps, (processStep (m.extracted_data.getD []) s).isSome := by
    intro s hs
    have hproj : (projectAll (stepMatched (m.extracted_data.getD []) s)).isSome := by
      apply projectAll_isSome
      intro d hd
      rw [stepMatched, List.mem_filter] at hd
      obtain ⟨hdm, hmatch⟩ := hd
      apply projectElem_isSome_of
      apply h d hdm
      rw [matchesSomeStep, List.any_eq_true]
      exact ⟨s, hs, hmatch⟩
    simp only [processStep]
    cases hpa : projectAll (stepMatched (m.extracted_data.getD []) s) with
    | none => rw [hpa] at hproj; cases hproj
    | some l => cases l <;> simp
  have hps := processSteps_isSome hsteps
  simp only [map_extracted_data_to_steps]
  cases hp : processSteps (m.extracted_data.getD []) m.execution_steps with
  | none => rw [hp] at hps; cases hps
  | some ns => simp

/-- Witness for C10: a module whose unmatched elements lack every key
still reconciles successfully. -/
theorem reconcile_total_on_keyed_matches_witness :
    (∀ d ∈ safeM.extracted_data.getD [], matchesSomeStep safeM.execution_steps d = true →
      d.type.isSome ∧ d.request_description.isSome ∧
      d.identifier_type.isSome ∧ d.identifier_tracking.isSome) ∧
    (map_extracted_data_to_steps safeM).isSome :=
  ⟨by decide, reconcile_total_on_keyed_matches safeM (by decide)⟩

theorem truthy_some {k : String} (hk : k ≠ "") : truthy (some k) = true := by
  simp [truthy, hk]

theorem pyOr_pos {a : Option String} (b : Option String) (h : truthy a = true) :
    pyOr a b = a := by
  simp [pyOr, h]

theorem pyOr_neg {a : Option String} (b : Option String) (h : truthy a = false) :
    pyOr a b = b := by
  simp [pyOr, h]

theorem pyOr3_first {a : Option String} (b c : Option String) (h : truthy a = true) :
    pyOr3 a b c = a :=
  pyOr_pos _ h

theorem pyOr3_second {a b : Option String} (c : Option String)
    (ha : truthy a = false) (hb : truthy b = true) : pyOr3 a b c = b := by
  rw [pyOr3, pyOr_neg _ ha, pyOr_pos _ hb]

theorem pyOr3_third {a b : Option String} (c : Option String)
    (ha : truthy a = false) (hb : truthy b = false) : pyOr3 a b c = c := by
  rw [pyOr3, pyOr_neg _ ha, pyOr_neg _ hb]

theorem pyOrD_pos {a : Option String} {k : String} (d : String)
    (h : a = some k) (hk : k ≠ "") : pyOrD a d = k := by
  subst h
  simp [pyOrD, truthy, hk]

theorem pyOrD_neg {a : Option String} (d : String) (h : truthy a = false) :
    pyOrD a d = d := by
  simp [pyOrD, h]

theorem getD_pyOr3_first {x : Option String} {k : String} (b c : Option String)
    (hx : x = some k) (hk : k ≠ "") : (pyOr3 x b c).getD "" = k := by
  rw [pyOr3_first b c (by rw [hx]; exact truthy_some hk), hx]
  rfl

theorem getD_pyOr3_second {x b : Option String} {k : String} (c : Option String)
    (hx : truthy x = false) (hb : b = some k) (hk : k ≠ "") :
    (pyOr3 x b c).getD "" = k := by
  rw [pyOr3_second c hx (by rw [hb]; exact truthy_some hk), hb]
  rfl

theorem getD_pyOr3_third {x b cv : Option String} {k : String}
    (hx : truthy x = false) (hb : truthy b = false) (hcv : cv = some k) :
    (pyOr3 x b cv).getD "" = k := by
  rw [pyOr3_third cv hx hb, hcv]
  rfl

theorem pyOrD_pyOr3_first {x : Option String} {k : String} (b c : Option String)
    (d : String) (hx : x = some k) (hk : k ≠ "") : pyOrD (pyOr3 x b c) d = k := by
  rw [pyOr3_first b c (by rw [hx]; exact truthy_some hk)]
  exact pyOrD_pos d hx hk

theorem pyOrD_pyOr3_second {x b : Option String} {k : String} (c : Option String)
    (d : String) (hx : truthy x = false) (hb : b = some k) (hk : k ≠ "") :
    pyOrD (pyOr3 x b c) d = k := by
  rw [pyOr3_second c hx (by rw [hb]; exact truthy_some hk)]
  exact pyOrD_pos d hb hk

theorem pyOrD_pyOr3_third {x b cv : Option String} {k : String}
    (d : String) (hx : truthy x = false) (hb : truthy b = false)
    (hcv : cv = some k) (hk : k ≠ "") : pyOrD (pyOr3 x b cv) d = k := by
  rw [pyOr3_third cv hx hb]
  exact pyOrD_pos d hcv hk

theorem pyOrD_pyOr3_none {x b cv : Option String} (d : String)
    (hx : truthy x = false) (hb : truthy b = false) (hcv : truthy cv = false) :
    pyOrD (pyOr3 x b cv) d = d := by
  rw [pyOr3_third cv hx hb]
  exact pyOrD_neg d hcv

theorem build_ok_fields {a : Args} {e c : String → Option String} {s : LLMSettings}
    (h : build_llm_settings a e c = Except.ok s) :
    s.provider = resolve_provider a e c ∧
    (if resolve_provider a e c == "ollama" then
       s.api_key = (pyOr3 a.api_key (e "OLLAMA_API_KEY") (c "ollamaApiKey")).getD "" ∧
       s.api_base = some (pyOrD (pyOr3 a.api_base (e "OLLAMA_API_BASE") (c "ollamaApiBase"))
         "https://suz-ai01.eisgroup.com/ollama/api/generate") ∧
       s.model = pyOrD (pyOr3 a.model (e "OLLAMA_MODEL") (c "ollamaModel")) "qwen2.5vl:32b"
     else
       s.api_key = (pyOr3 a.api_key (e "OPENAI_API_KEY") (c "openaiApiKey")).getD "" ∧
       s.api_base = pyOr (pyOr3 a.api_base (e "OPENAI_BASE_URL") (c "openaiBaseUrl")) none ∧
       s.model = pyOrD (pyOr3 a.model (e "OPENAI_MODEL") (c "openaiModel")) "gpt-4o-mini") := by
  simp only [build_llm_settings] at h
  split at h
  next hb =>
    split at h
    next =>
      cases h
      rw [if_pos hb]
      exact ⟨rfl, rfl, rfl, rfl⟩
    next => cases h
  next hb =>
    split at h
    next =>
      cases h
      rw [if_neg hb]
      exact ⟨rfl, rfl, rfl, rfl⟩
    next => cases h

/-- C6: the configuration resolver resolves provider, API key, API base
URL and model name with precedence CLI flag, then environment variable,
then properties file, then built-in default; in particular
`--provider openai` with `OPENAI_API_KEY=sk-test` and no `--api-key`
yields provider `openai` and key `sk-test`, and with no provider given
anywhere the provider defaults to `ollama`. -/
theorem settings_precedence :
    (∀ (a : Args) (e c : String → Option String) (s : LLMSettings),
      build_llm_settings a e c = Except.ok s → s.provider = resolve_provider a e c) ∧
    (∀ (a : Args) (e c : String → Option String) (p : String),
      a.provider = some p → p ≠ "" → resolve_provider a e c = lower p) ∧
    (∀ (a : Args) (e c : String → Option String) (p : String),
      truthy a.provider = false → e "LLM_PROVIDER" = some p → p ≠ "" →
      resolve_provider a e c = lower p) ∧
    (∀ (a : Args) (e c : String → Option String) (p : String),
      truthy a.provider = false → truthy (e "LLM_PROVIDER") = false →
      c "llmProvider" = some p → p ≠ "" → resolve_provider a e c = lower p) ∧
    (∀ (a : Args) (e c : String → Option String),
      truthy a.provider = false → truthy (e "LLM_PROVIDER") = false →
      truthy (c "llmProvider") = false → resolve_provider a e c = "ollama") ∧
    (∀ (a : Args) (e c : String → Option String) (s : LLMSettings) (k : String),
      a.api_key = some k → k ≠ "" →
      build_llm_settings a e c = Except.ok s → s.api_key = k) ∧
    (∀ (a : Args) (e c : String → Option String) (s : LLMSettings) (k : String),
      truthy a.api_key = false →
      (if resolve_provider a e c = "ollama"
        then e "OLLAMA_API_KEY" else e "OPENAI_API_KEY") = some k → k ≠ "" →
      build_llm_settings a e c = Except.ok s → s.api_key = k) ∧
    (∀ (a : Args) (e c : String → Option String) (s : LLMSettings) (k : String),
      truthy a.api_key = false →
      truthy (if resolve_provider a e c = "ollama"
        then e "OLLAMA_API_KEY" else e "OPENAI_API_KEY") = false →
      (if resolve_provider a e c = "ollama"
        then c "ollamaApiKey" else c "openaiApiKey") = some k → k ≠ "" →
      build_llm_settings a e c = Except.ok s → s.api_key = k) ∧
    (∀ (a : Args) (e c : String → Option String) (s : LLMSettings) (b : String),
      a.api_base = some b → b ≠ "" →
      build_llm_settings a e c = Except.ok s → s.api_base = some b) ∧
    (∀ (a : Args) (e c : String → Option String) (s : LLMSettings) (b : String),
      truthy a.api_base = false →
      (if resolve_provider a e c = "ollama"
        then e "OLLAMA_API_BASE" else e "OPENAI_BASE_URL") = some b → b ≠ "" →
      build_llm_settings a e c = Except.ok s → s.api_base = some b) ∧
    (∀ (a : Args) (e c : String → Option String) (s : LLMSettings) (b : String),
      truthy a.api_base = false →
      truthy (if resolve_provider a e c = "ollama"
        then e "OLLAMA_API_BASE" else e "OPENAI_BASE_URL") = false →
      (if resolve_provider a e c = "ollama"
        then c "ollamaApiBase" else c "openaiBaseUrl") = some b → b ≠ "" →
      build_llm_settings a e c = Except.ok s → s.api_base = some b) ∧
    (∀ (a : Args) (e c : String → Option String) (s : LLMSettings),
      truthy a.api_base = false → truthy (e "OLLAMA_API_BASE") = false →
      truthy (c "ollamaApiBase") = false → resolve_provider a e c = "ollama" →
      build_llm_settings a e c = Except.ok s →
      s.api_base = some "https://suz-ai01.eisgroup.com/ollama/api/generate") ∧
    (∀ (a : Args) (e c : String → Option String) (s : LLMSettings),
      truthy a.api_base = false → truthy (e "OPENAI_BASE_URL") = false →
      truthy (c "openaiBaseUrl") = false → resolve_provider a e c ≠ "ollama" →
      build_llm_settings a e c = Except.ok s → s.api_base = none) ∧
    (∀ (a : Args) (e c : String → Option String) (s : LLMSettings) (mo : String),
      a.model = some mo → mo ≠ "" →
      build_llm_settings a e c = Except.ok s → s.model = mo) ∧
    (∀ (a : Args) (e c : String → Option String) (s : LLMSettings) (mo : String),
      truthy a.model = false →
      (if resolve_provider a e c = "ollama"
        then e "OLLAMA_MODEL" else e "OPENAI_MODEL") = some mo → mo ≠ "" →
      build_llm_settings a e c = Except.ok s → s.model = mo) ∧
    (∀ (a : Args) (e c : String → Option String) (s : LLMSettings) (mo : String),
      truthy a.model = false →
      truthy (if resolve_provider a e c = "ollama"
        then e "OLLAMA_MODEL" else e "OPENAI_MODEL") = false →
      (if resolve_provider a e c = "ollama"
        then c "ollamaModel" else c "openaiModel") = some mo → mo ≠ "" →
      build_llm_settings a e c = Except.ok s → s.model = mo) ∧
    (∀ (a : Args) (e c : String → Option String) (s : LLMSettings),
      truthy a.model = false → truthy (e "OLLAMA_MODEL") = false →
      truthy (c "ollamaModel") = false → resolve_provider a e c = "ollama" →
      build_llm_settings a e c = Except.ok s → s.model = "qwen2.5vl:32b") ∧
    (∀ (a : Args) (e c : String → Option String) (s : LLMSettings),
      truthy a.model = false → truthy (e "OPENAI_MODEL") = false →
      truthy (c "openaiModel") = false → resolve_provider a e c ≠ "ollama" →
      build_llm_settings a e c = Except.ok s → s.model = "gpt-4o-mini") ∧
    (build_llm_settings argsOpenai envSk noEnv = Except.ok settingsSk) ∧
    (resolve_provider argsNone noEnv noEnv = "ollama") := by
  refine ⟨?_, ?_, ?_, ?_, ?_, ?_, ?_, ?_, ?_, ?_, ?_, ?_, ?_, ?_, ?_, ?_, ?_, ?_, rfl, rfl⟩
  · intro a e c s h
    exact (build_ok_fields h).1
  · intro a e c p hp hpne
    rw [resolve_provider, pyOr3_first _ _ (by rw [hp]; exact truthy_some hpne), hp,
      pyOrD_pos _ rfl hpne]
  · intro a e c p ha hp hpne
    rw [resolve_provider, pyOr3_second _ ha (by rw [hp]; exact truthy_some hpne), hp,
      pyOrD_pos _ rfl hpne]
  · intro a e c p ha hb hp hpne
    rw [resolve_provider, pyOr3_third _ ha hb, hp, pyOrD_pos _ rfl hpne]
  · intro a e c ha hb hc
    rw [resolve_provider, pyOr3_third _ ha hb, pyOrD_neg _ hc]
    rfl
  · intro a e c s k hak hk h
    have hf := build_ok_fields h
    by_cases hb : (resolve_provider a e c == "ollama") = true
    · rw [if_pos hb] at hf
      rw [hf.2.1]
      exact getD_pyOr3_first _ _ hak hk
    · rw [if_neg hb] at hf
      rw [hf.2.1]
      exact getD_pyOr3_first _ _ hak hk
  · intro a e c s k ha hsel hk h
    have hf := build_ok_fields h
    by_cases hb : resolve_provider a e c = "ollama"
    · rw [if_pos hb] at hsel
      rw [if_pos (show (resolve_provider a e c == "ollama") = true by simp [hb])] at hf
      rw [hf.2.1]
      exact getD_pyOr3_second _ ha hsel hk
    · rw [if_neg hb] at hsel
      rw [if_neg (show ¬ (resolve_provider a e c == "ollama") = true by simp [hb])] at hf
      rw [hf.2.1]
      exact getD_pyOr3_second _ ha hsel hk
  · intro a e c s k ha hselE hselC hk h
    have hf := build_ok_fields h
    by_cases hb : resolve_provider a e c = "ollama"
    · rw [if_pos hb] at hselE hselC
      rw [if_pos (show (resolve_provider a e c == "ollama") = true by simp [hb])] at hf
      rw [hf.2.1]
      exact getD_pyOr3_third ha hselE hselC
    · rw [if_neg hb] at hselE hselC
      rw [if_neg (show ¬ (resolve_provider a e c == "ollama") = true by simp [hb])] at hf
      rw [hf.2.1]
      exact getD_pyOr3_third ha hselE hselC
  · intro a e c s b hab hbne h
    have hf := build_ok_fields h
    by_cases hb : (resolve_provider a e c == "ollama") = true
    · rw [if_pos hb] at hf
      rw [hf.2.2.1, pyOrD_pyOr3_first _ _ _ hab hbne]
    · rw [if_neg hb] at hf
      rw [hf.2.2.1, pyOr3_first _ _ (by rw [hab]; exact truthy_some hbne),
        pyOr_pos _ (by rw [hab]; exact truthy_some hbne), hab]
  · intro a e c s b ha hsel hbne h
    have hf := build_ok_fields h
    by_cases hb : resolve_provider a e c = "ollama"
    · rw [if_pos hb] at hsel
      rw [if_pos (show (resolve_provider a e c == "ollama") = true by simp [hb])] at hf
      rw [hf.2.2.1, pyOrD_pyOr3_second _ _ ha hsel hbne]
    · rw [if_neg hb] at hsel
      rw [if_neg (show ¬ (resolve_provider a e c == "ollama") = true by simp [hb])] at hf
      rw [hf.2.2.1, pyOr3_second _ ha (by rw [hsel]; exact truthy_some hbne),
        pyOr_pos _ (by rw [hsel]; exact truthy_some hbne), hsel]
  · intro a e c s b ha hselE hselC hbne h
    have hf := build_ok_fields h
    by_cases hb : resolve_provider a e c = "ollama"
    · rw [if_pos hb] at hselE hselC
      rw [if_pos (show (resolve_provider a e c == "ollama") = true by simp [hb])] at hf
      rw [hf.2.2.1, pyOrD_pyOr3_third _ ha hselE hselC hbne]
    · rw [if_neg hb] at hselE hselC
      rw [if_neg (show ¬ (resolve_provider a e c == "ollama") = true by simp [hb])] at hf
      rw [hf.2.2.1, pyOr3_third _ ha hselE, hselC,
        pyOr_pos _ (truthy_some hbne)]
  · intro a e c s ha he hc2 hb h
    have hf := build_ok_fields h
    rw [if_pos (show (resolve_provider a e c == "ollama") = true by simp [hb])] at hf
    rw [hf.2.2.1, pyOrD_pyOr3_none _ ha he hc2]
  · intro a e c s ha he hc2 hb h
    have hf := build_ok_fields h
    rw [if_neg (show ¬ (resolve_provider a e c == "ollama") = true by simp [hb])] at hf
    rw [hf.2.2.1, pyOr_neg _ (by rw [pyOr3_third _ ha he]; exact hc2)]
  · intro a e c s mo hm hmne h
    have hf := build_ok_fields h
    by_cases hb : (resolve_provider a e c == "ollama") = true
    · rw [if_pos hb] at hf
      rw [hf.2.2.2, pyOrD_pyOr3_first _ _ _ hm hmne]
    · rw [if_neg hb] at hf
      rw [hf.2.2.2, pyOrD_pyOr3_first _ _ _ hm hmne]
  · intro a e c s mo ha hsel hmne h
    have hf := build_ok_fields h
    by_cases hb : resolve_provider a e c = "ollama"
    · rw [if_pos hb] at hsel
      rw [if_pos (show (resolve_provider a e c == "ollama") = true by simp [hb])] at hf
      rw [hf.2.2.2, pyOrD_pyOr3_second _ _ ha hsel hmne]
    · rw [if_neg hb] at hsel
      rw [if_neg (show ¬ (resolve_provider a e c == "ollama") = true by simp [hb])] at hf
      rw [hf.2.2.2, pyOrD_pyOr3_second _ _ ha hsel hmne]
  · intro a e c s mo ha hselE hselC hmne h
    have hf := build_ok_fields h
    by_cases hb : resolve_provider a e c = "ollama"
    · rw [if_pos hb] at hselE hselC
      rw [if_pos (show (resolve_provider a e c == "ollama") = true by simp [hb])] at hf
      rw [hf.2.2.2, pyOrD_pyOr3_third _ ha hselE hselC hmne]
    · rw [if_neg hb] at hselE hselC
      rw [if_neg (show ¬ (resolve_provider a e c == "ollama") = true by simp [hb])] at hf
      rw [hf.2.2.2, pyOrD_pyOr3_third _ ha hselE hselC hmne]
  · intro a e c s ha he hc2 hb h
    have hf := build_ok_fields h
    rw [if_pos (show (resolve_provider a e c == "ollama") = true by simp [hb])] at hf
    rw [hf.2.2.2, pyOrD_pyOr3_none _ ha he hc2]
  · intro a e c s ha he hc2 hb h
    have hf := build_ok_fields h
    rw [if_neg (show ¬ (resolve_provider a e c == "ollama") = true by simp [hb])] at hf
    rw [hf.2.2.2, pyOrD_pyOr3_none _ ha he hc2]

/-- Witness for C6: a CLI-passed API key wins over environment and
properties file (both empty here), under the default ollama provider. -/
theorem settings_precedence_witness :
    build_llm_settings argsCliKey noEnv noEnv = Except.ok settingsCliKey ∧
    settingsCliKey.api_key = "cli-key" :=
  ⟨rfl, settings_precedence.2.2.2.2.2.1 argsCliKey noEnv noEnv settingsCliKey "cli-key"
    rfl (by decide) rfl⟩

/-- C7: when the selected provider's API key is resolvable from neither
CLI flag nor environment variable nor properties file, the resolver
returns the raised configuration error (so no settings value — and in
the source no client handle, which is constructed only after the check —
is ever produced); this holds in both the ollama and the openai
branch. -/
theorem settings_missing_key_error :
    ∀ (a : Args) (e c : String → Option String),
      truthy a.api_key = false →
      (resolve_provider a e c = "ollama" →
        truthy (e "OLLAMA_API_KEY") = false → truthy (c "ollamaApiKey") = false →
        build_llm_settings a e c = Except.error "Missing Ollama API key. Set the OLLAMA_API_KEY environment variable or provide ollamaApiKey in config.properties.") ∧
      (resolve_provider a e c ≠ "ollama" →
        truthy (e "OPENAI_API_KEY") = false → truthy (c "openaiApiKey") = false →
        build_llm_settings a e c = Except.error "OPENAI_API_KEY is required when LLM_PROVIDER is openai.") := by
  intro a e c hak
  constructor
  · intro hp he hc2
    have hkey : truthy (pyOr3 a.api_key (e "OLLAMA_API_KEY") (c "ollamaApiKey")) = false := by
      rw [pyOr3_third _ hak he]
      exact hc2
    simp only [build_llm_settings]
    rw [if_pos (show (resolve_provider a e c == "ollama") = true by simp [hp]),
      if_neg (show ¬ truthy (pyOr3 a.api_key (e "OLLAMA_API_KEY") (c "ollamaApiKey")) = true by
        simp [hkey])]
  · intro hp he hc2
    have hkey : truthy (pyOr3 a.api_key (e "OPENAI_API_KEY") (c "openaiApiKey")) = false := by
      rw [pyOr3_third _ hak he]
      exact hc2
    simp only [build_llm_settings]
    rw [if_neg (show ¬ (resolve_provider a e c == "ollama") = true by simp [hp]),
      if_neg (show ¬ truthy (pyOr3 a.api_key (e "OPENAI_API_KEY") (c "openaiApiKey")) = true by
        simp [hkey])]

/-- Witness for C7: `--provider openai` with no key available anywhere
produces the openai-branch configuration error. -/
theorem settings_missing_key_error_witness :
    truthy argsOpenai.api_key = false ∧
    build_llm_settings argsOpenai noEnv noEnv
      = Except.error "OPENAI_API_KEY is required when LLM_PROVIDER is openai." :=
  ⟨rfl, (settings_missing_key_error argsOpenai noEnv noEnv rfl).2 (by decide) rfl rfl⟩

/-- C8: the summary payload of `write_internal_execution_plan` holds
exactly the keys `feature_path`, `refined_data_path`, `modules`,
`steps`, with `modules` the number of modules of the written test-case
JSON and `steps` the total number of execution steps over all its
modules. -/
theorem summary_payload_counts :
    ∀ (fp rp : String) (tc : TestCase),
      (summary_payload fp rp tc).map Prod.fst
        = ["feature_path", "refined_data_path", "modules", "steps"] ∧
      (summary_payload fp rp tc).lookup "modules" = some (SVal.num tc.modules.length) ∧
      (summary_payload fp rp tc).lookup "steps" = some (SVal.num (totalSteps tc.modules)) := by
  intro fp rp tc
  refine ⟨rfl, rfl, ?_⟩
  have hsum : (summary_payload fp rp tc).lookup "steps"
      = some (SVal.num ((tc.modules.map (fun m => m.execution_steps.length)).sum)) := rfl
  have htot : ∀ ms : List Module,
      (ms.map (fun m => m.execution_steps.length)).sum = totalSteps ms := by
    intro ms
    induction ms with
    | nil => rfl
    | cons m rest ih => simp [totalSteps, ih]
  rw [hsum, htot]

end GenIAE2ETest
